import Mathlib

/-! # Collaboration broker of `server/index.js`

A shallow embedding of the socket block of `src/server/index.js`
(lines 12 and 34-65): the `userMap` registry and the six handlers
`connection`, `join-room`, `code-change`, `send-chat`, `typing` and
`disconnect`, on top of the room primitives of the socket transport
(`socket.join`, `socket.to(room).emit`).

The spec speaks of a `join` event and of a `displayName` field; the source
names them `join-room` and `username`.  The definitions keep the source's
names.
-/

namespace JustCoding

/-- A socket id (`socket.id`), a string handed out by the transport. -/
abbrev ConnId := String

/-- A value read out of an inbound payload by destructuring: a string, or
`none` for `undefined` when the payload has no such field. -/
abbrev JSVal := Option String

/-- A room key as passed to `socket.join` and `socket.to`. -/
abbrev Room := JSVal

/-- Template-literal interpolation `${v}`: an absent value prints as the text
`undefined`. -/
def interp (v : JSVal) : String :=
  match v with
  | some s => s
  | none => "undefined"

/-- The value stored in `userMap`: the object `{ username, roomId }`. -/
structure User where
  username : JSVal
  roomId : JSVal
deriving DecidableEq, Repr

/-- The argument of an outbound `emit`: a single value (a notice text or the
code snapshot), or the object `{ username, message }` of `receive-chat`. -/
inductive Data where
  | val (v : JSVal)
  | chat (username message : JSVal)
deriving DecidableEq, Repr

/-- One outbound packet `emit(event, data)` as a recipient sees it. -/
structure Emit where
  event : String
  data : Data
deriving DecidableEq, Repr

/-- What a handler run sends: for every socket, the packets delivered to it, in
order. -/
abbrev Out := ConnId → List Emit

/-- No packet for anyone. -/
def silent : Out := fun _ => []

/-- The server state: the sockets whose handlers are registered, the transport's
room membership (a set of rooms per socket), and `userMap`. -/
structure State where
  connected : ConnId → Bool
  rooms : ConnId → Room → Bool
  userMap : ConnId → Option User

/-- The state at start-up: nobody connected, `userMap = {}`. -/
def init : State :=
  { connected := fun _ => false, rooms := fun _ _ => false, userMap := fun _ => none }

/-- The call `socket.join(room)`: adds the room to the socket's set of rooms. -/
def socketJoin (s : State) (c : ConnId) (room : Room) : State :=
  { s with rooms := fun b r => if b = c ∧ r = room then true else s.rooms b r }

/-- The transport dropping a closing socket from every room; it does so before
it fires `disconnect`. -/
def leaveAll (s : State) (c : ConnId) : State :=
  { s with rooms := fun b r => if b = c then false else s.rooms b r }

/-- The call `socket.to(room).emit(event, data)`: one packet to every socket in
`room`, except the sockets in the room named after the sender's id.  That is how
the transport (socket.io 4) leaves out the sender: the broadcast carries
`except = {socket.id}` and skips every member of that room, so it also skips a
peer that joined the room named after the sender's id. -/
def toEmit (s : State) (c : ConnId) (room : Room) (event : String) (data : Data) : Out :=
  fun b => if s.rooms b room = true ∧ s.rooms b (some c) = false then [⟨event, data⟩] else []

/-- The assignment `userMap[id] = user`. -/
def setUser (s : State) (c : ConnId) (u : User) : State :=
  { s with userMap := fun b => if b = c then some u else s.userMap b }

/-- The statement `delete userMap[id]`. -/
def deleteUser (s : State) (c : ConnId) : State :=
  { s with userMap := fun b => if b = c then none else s.userMap b }

/-- The `connection` callback (line 34): the handlers of the new socket are
registered; the transport has put the socket in the room named by its own id. -/
def onConnection (s : State) (c : ConnId) : State × Out :=
  (socketJoin { s with connected := fun b => if b = c then true else s.connected b } c (some c),
   silent)

/-- The `join-room` handler (lines 37-42). -/
def onJoinRoom (s : State) (c : ConnId) (roomId username : JSVal) : State × Out :=
  let s1 := socketJoin s c roomId
  let s2 := setUser s1 c { username := username, roomId := roomId }
  (s2, toEmit s2 c roomId "user-joined" (.val (some (interp username ++ " joined the room"))))

/-- The `code-change` handler (lines 44-46). -/
def onCodeChange (s : State) (c : ConnId) (roomId code : JSVal) : State × Out :=
  (s, toEmit s c roomId "code-update" (.val code))

/-- The `send-chat` handler (lines 48-50). -/
def onSendChat (s : State) (c : ConnId) (roomId username message : JSVal) : State × Out :=
  (s, toEmit s c roomId "receive-chat" (.chat username message))

/-- The `typing` handler (lines 52-54). -/
def onTyping (s : State) (c : ConnId) (roomId username : JSVal) : State × Out :=
  (s, toEmit s c roomId "show-typing" (.val (some (interp username ++ " is typing..."))))

/-- The `disconnect` handler (lines 56-64), run on the state the transport
leaves behind: the socket is out of all its rooms and no longer connected. -/
def onDisconnect (s : State) (c : ConnId) : State × Out :=
  let s1 := leaveAll { s with connected := fun b => if b = c then false else s.connected b } c
  match s1.userMap c with
  | some user =>
    let out := toEmit s1 c user.roomId "user-left" (.val (some (interp user.username ++ " left the room")))
    (deleteUser s1 c, out)
  | none => (s1, silent)

/-- An inbound event with the fields its handler destructures from the payload
object; a field the payload lacks is `none`. -/
inductive Event where
  | connect (c : ConnId)
  | joinRoom (c : ConnId) (roomId username : JSVal)
  | codeChange (c : ConnId) (roomId code : JSVal)
  | sendChat (c : ConnId) (roomId username message : JSVal)
  | typing (c : ConnId) (roomId username : JSVal)
  | disconnect (c : ConnId)
deriving DecidableEq, Repr

/-- The socket an event comes from. -/
def Event.sender : Event → ConnId
  | .connect c => c
  | .joinRoom c _ _ => c
  | .codeChange c _ _ => c
  | .sendChat c _ _ _ => c
  | .typing c _ _ => c
  | .disconnect c => c

/-- One event handled to completion.  Handlers exist only on a connected socket
(they are registered inside the `connection` callback), so an event of any
other socket changes nothing. -/
def step (s : State) (e : Event) : State × Out :=
  match e with
  | .connect c => onConnection s c
  | .joinRoom c roomId username =>
    if s.connected c = true then onJoinRoom s c roomId username else (s, silent)
  | .codeChange c roomId code =>
    if s.connected c = true then onCodeChange s c roomId code else (s, silent)
  | .sendChat c roomId username message =>
    if s.connected c = true then onSendChat s c roomId username message else (s, silent)
  | .typing c roomId username =>
    if s.connected c = true then onTyping s c roomId username else (s, silent)
  | .disconnect c =>
    if s.connected c = true then onDisconnect s c else (s, silent)

/-- The state after a sequence of events, from start-up. -/
def exec (t : List Event) : State :=
  t.foldl (fun s e => (step s e).1) init

/-- The inbound payload object of a client event, before destructuring. -/
structure Fields where
  roomId : JSVal
  username : JSVal
  code : JSVal
  message : JSVal
deriving DecidableEq, Repr

/-- The error a handler can raise. -/
inductive JSError where
  | typeError
deriving DecidableEq, Repr

/-- A named client packet reaching a connected socket.  The parameter patterns
`({ roomId, ... })` raise a `TypeError` when the packet carries no payload
(`none`); `disconnect` takes no argument; a name without handler is dropped. -/
def dispatch (s : State) (c : ConnId) (name : String) (payload : Option Fields) :
    Except JSError (State × Out) :=
  if name = "disconnect" then .ok (step s (.disconnect c))
  else if name = "join-room" then
    match payload with
    | some f => .ok (step s (.joinRoom c f.roomId f.username))
    | none => .error .typeError
  else if name = "code-change" then
    match payload with
    | some f => .ok (step s (.codeChange c f.roomId f.code))
    | none => .error .typeError
  else if name = "send-chat" then
    match payload with
    | some f => .ok (step s (.sendChat c f.roomId f.username f.message))
    | none => .error .typeError
  else if name = "typing" then
    match payload with
    | some f => .ok (step s (.typing c f.roomId f.username))
    | none => .error .typeError
  else .ok (s, silent)

/-! ## Histories -/

/-- Socket `c` is connected at the end of `t`: it connected and has not
disconnected since. -/
def Live (t : List Event) (c : ConnId) : Prop :=
  ∃ pre post, t = pre ++ Event.connect c :: post ∧ Event.disconnect c ∉ post

/-- Socket `c`, while connected, sent a `join-room` for `r` and has not
disconnected since. -/
def JoinedSince (t : List Event) (c : ConnId) (r : Room) : Prop :=
  ∃ pre post u, t = pre ++ Event.joinRoom c r u :: post ∧ Live pre c ∧
    Event.disconnect c ∉ post

/-- Socket `c` has sent at least one `join-room` and has not yet disconnected. -/
def HasJoined (t : List Event) (c : ConnId) : Prop :=
  ∃ r, JoinedSince t c r

/-- Socket `c`, having joined `r1`, sent a `join-room` for `r2` with name `n2`,
and has neither disconnected nor sent another `join-room` since. -/
def RejoinedAs (t : List Event) (c : ConnId) (r1 r2 : Room) (n2 : JSVal) : Prop :=
  ∃ pre post, t = pre ++ Event.joinRoom c r2 n2 :: post ∧ JoinedSince pre c r1 ∧
    Event.disconnect c ∉ post ∧ ∀ r u, Event.joinRoom c r u ∉ post

/-! ## Scenarios -/

/-- Sockets `A` and `B` connect, `B` joins `r1`, then `A` joins `r1`. -/
def bothJoined : List Event :=
  [.connect "A", .connect "B", .joinRoom "B" (some "r1") (some "bob"),
   .joinRoom "A" (some "r1") (some "alice")]

/-- Socket `B` joins `r1` and then re-joins as a member of `r2`; `A` joins
`r1`. -/
def rejoined : List Event :=
  [.connect "A", .connect "B", .joinRoom "B" (some "r1") (some "bob"),
   .joinRoom "B" (some "r2") (some "bob"), .joinRoom "A" (some "r1") (some "alice")]

/-- Sockets `A`, `B`, `C` join `r1` in that order as alice, bob and carol. -/
def threeJoined : List Event :=
  [.connect "A", .connect "B", .connect "C", .joinRoom "A" (some "r1") (some "alice"),
   .joinRoom "B" (some "r1") (some "bob"), .joinRoom "C" (some "r1") (some "carol")]

/-- Socket `C` joins `r1` and then `r2`; socket `D` joins `r2` and then `r1`, so
the registry ends with `C` in `r2` and `D` in `r1`. -/
def crossJoined : List Event :=
  [.connect "C", .connect "D", .joinRoom "C" (some "r1") (some "carol"),
   .joinRoom "D" (some "r2") (some "dave"), .joinRoom "C" (some "r2") (some "carol"),
   .joinRoom "D" (some "r1") (some "dave")]

/-- Socket `A` joins `r1`; socket `B` joins the room named after the id of `A`
and then `r1`. -/
def idRoomJoined : List Event :=
  [.connect "A", .connect "B", .joinRoom "A" (some "r1") (some "alice"),
   .joinRoom "B" (some "A") (some "bob"), .joinRoom "B" (some "r1") (some "bob")]

/-- Socket `A` joins the room named after the id of `B` and then `r1`; `B` has
connected and joined nothing. -/
def idRoomFirst : List Event :=
  [.connect "A", .connect "B", .joinRoom "A" (some "B") (some "alice"),
   .joinRoom "A" (some "r1") (some "alice")]

/-- Socket `C` joins `r1` and then the room named after the id of `D`. -/
def idRoomRejoin : List Event :=
  [.connect "C", .connect "D", .joinRoom "C" (some "r1") (some "carol"),
   .joinRoom "C" (some "D") (some "carol")]

/-! ## Effect of one event on each component of the state -/

theorem exec_nil : exec [] = init := rfl

theorem exec_snoc (t : List Event) (e : Event) :
    exec (t ++ [e]) = (step (exec t) e).1 := by
  simp [exec, List.foldl_append]

theorem step_connected (s : State) (e : Event) (b : ConnId) :
    (step s e).1.connected b =
      if e = .connect b then true else if e = .disconnect b then false else s.connected b := by
  cases e with
  | connect c =>
    by_cases h : b = c <;> simp [step, onConnection, socketJoin, h, eq_comm]
  | joinRoom c r u =>
    by_cases h : s.connected c = true <;> simp [step, onJoinRoom, socketJoin, setUser, h]
  | codeChange c r x =>
    by_cases h : s.connected c = true <;> simp [step, onCodeChange, h]
  | sendChat c r u m =>
    by_cases h : s.connected c = true <;> simp [step, onSendChat, h]
  | typing c r u =>
    by_cases h : s.connected c = true <;> simp [step, onTyping, h]
  | disconnect c =>
    by_cases h : s.connected c = true
    · by_cases hb : b = c
      · subst hb
        cases hu : s.userMap b <;> simp [step, onDisconnect, leaveAll, deleteUser, h, hu]
      · have hb2 : ¬ c = b := fun h2 => hb h2.symm
        cases hu : s.userMap c <;> simp [step, onDisconnect, leaveAll, deleteUser, h, hu, hb, hb2]
    · by_cases hb : b = c
      · subst hb
        simp [step, h]
      · have hb2 : ¬ c = b := fun h2 => hb h2.symm
        simp [step, h, hb2]

theorem step_codeChange_fst (s : State) (c : ConnId) (r x : JSVal) :
    (step s (.codeChange c r x)).1 = s := by
  by_cases h : s.connected c = true <;> simp [step, onCodeChange, h]

theorem step_sendChat_fst (s : State) (c : ConnId) (r u m : JSVal) :
    (step s (.sendChat c r u m)).1 = s := by
  by_cases h : s.connected c = true <;> simp [step, onSendChat, h]

theorem step_typing_fst (s : State) (c : ConnId) (r u : JSVal) :
    (step s (.typing c r u)).1 = s := by
  by_cases h : s.connected c = true <;> simp [step, onTyping, h]

theorem step_connect_rooms (s : State) (c b : ConnId) (r : Room) :
    (step s (.connect c)).1.rooms b r = if b = c ∧ r = some c then true else s.rooms b r := by
  simp [step, onConnection, socketJoin]

theorem step_connect_userMap (s : State) (c : ConnId) :
    (step s (.connect c)).1.userMap = s.userMap := by
  simp [step, onConnection, socketJoin]

theorem step_joinRoom_rooms (s : State) (c b : ConnId) (room u : JSVal) (r : Room) :
    (step s (.joinRoom c room u)).1.rooms b r =
      if s.connected c = true ∧ b = c ∧ r = room then true else s.rooms b r := by
  by_cases h : s.connected c = true <;> simp [step, onJoinRoom, socketJoin, setUser, h]

theorem step_joinRoom_userMap (s : State) (c b : ConnId) (room u : JSVal) :
    (step s (.joinRoom c room u)).1.userMap b =
      if s.connected c = true ∧ b = c then some { username := u, roomId := room }
      else s.userMap b := by
  by_cases h : s.connected c = true <;> simp [step, onJoinRoom, socketJoin, setUser, h]

theorem step_disconnect_rooms (s : State) (c b : ConnId) (r : Room) :
    (step s (.disconnect c)).1.rooms b r =
      if s.connected c = true ∧ b = c then false else s.rooms b r := by
  by_cases h : s.connected c = true
  · cases hu : s.userMap c <;> simp [step, onDisconnect, leaveAll, deleteUser, h, hu]
  · simp [step, h]

theorem step_disconnect_userMap (s : State) (c b : ConnId) :
    (step s (.disconnect c)).1.userMap b =
      if s.connected c = true ∧ b = c then none else s.userMap b := by
  by_cases h : s.connected c = true
  · cases hu : s.userMap c
    · by_cases hb : b = c
      · subst hb
        simp [step, onDisconnect, leaveAll, deleteUser, h, hu]
      · simp [step, onDisconnect, leaveAll, deleteUser, h, hu, hb]
    · simp [step, onDisconnect, leaveAll, deleteUser, h, hu]
  · simp [step, h]

/-! ## Splitting a history at its last event -/

theorem snoc_eq_split {α : Type} (t : List α) (e x : α) (pre post : List α) :
    t ++ [e] = pre ++ x :: post ↔
      (post = [] ∧ t = pre ∧ e = x) ∨ ∃ q, post = q ++ [e] ∧ t = pre ++ x :: q := by
  rcases List.eq_nil_or_concat post with rfl | ⟨q, y, rfl⟩
  · constructor
    · intro h
      have h2 := congrArg List.reverse h
      simp at h2
      exact Or.inl ⟨rfl, h2.2, h2.1⟩
    · rintro (⟨_, rfl, rfl⟩ | ⟨q, hq, _⟩)
      · rfl
      · simp at hq
  · constructor
    · intro h
      have h2 := congrArg List.reverse h
      simp at h2
      exact Or.inr ⟨q, by simp [h2.1], h2.2⟩
    · rintro (⟨hq, _, _⟩ | ⟨q2, hq, rfl⟩)
      · simp at hq
      · rw [hq]; simp

theorem live_nil (c : ConnId) : ¬ Live [] c := by
  rintro ⟨pre, post, h, _⟩
  simp at h

theorem live_snoc (t : List Event) (e : Event) (c : ConnId) :
    Live (t ++ [e]) c ↔ e = .connect c ∨ (Live t c ∧ e ≠ .disconnect c) := by
  constructor
  · rintro ⟨pre, post, h, hn⟩
    rcases (snoc_eq_split t e _ pre post).1 h with ⟨_, _, he⟩ | ⟨q, rfl, ht⟩
    · exact Or.inl he
    · refine Or.inr ⟨⟨pre, q, ht, ?_⟩, ?_⟩
      · exact fun hm => hn (List.mem_append_left _ hm)
      · exact fun he => hn (by simp [he])
  · rintro (rfl | ⟨⟨pre, post, rfl, hn⟩, he⟩)
    · exact ⟨t, [], rfl, by simp⟩
    · refine ⟨pre, post ++ [e], by simp, ?_⟩
      simp only [List.mem_append, List.mem_singleton, not_or]
      exact ⟨hn, fun h => he h.symm⟩

theorem joinedSince_nil (c : ConnId) (r : Room) : ¬ JoinedSince [] c r := by
  rintro ⟨pre, post, u, h, _⟩
  simp at h

theorem joinedSince_snoc (t : List Event) (e : Event) (c : ConnId) (r : Room) :
    JoinedSince (t ++ [e]) c r ↔
      (∃ u, e = .joinRoom c r u ∧ Live t c) ∨ (JoinedSince t c r ∧ e ≠ .disconnect c) := by
  constructor
  · rintro ⟨pre, post, u, h, hl, hn⟩
    rcases (snoc_eq_split t e _ pre post).1 h with ⟨_, ht, he⟩ | ⟨q, rfl, ht⟩
    · exact Or.inl ⟨u, he, ht ▸ hl⟩
    · refine Or.inr ⟨⟨pre, q, u, ht, hl, ?_⟩, ?_⟩
      · exact fun hm => hn (List.mem_append_left _ hm)
      · exact fun he => hn (by simp [he])
  · rintro (⟨u, rfl, hl⟩ | ⟨⟨pre, post, u, rfl, hl, hn⟩, he⟩)
    · exact ⟨t, [], u, rfl, hl, by simp⟩
    · refine ⟨pre, post ++ [e], u, by simp, hl, ?_⟩
      simp only [List.mem_append, List.mem_singleton, not_or]
      exact ⟨hn, fun h => he h.symm⟩

theorem JoinedSince.live {t : List Event} {c : ConnId} {r : Room} (h : JoinedSince t c r) :
    Live t c := by
  obtain ⟨pre, post, u, rfl, ⟨p1, p2, rfl, hn1⟩, hn⟩ := h
  refine ⟨p1, p2 ++ Event.joinRoom c r u :: post, by simp, ?_⟩
  simp only [List.mem_append, List.mem_cons, not_or]
  exact ⟨hn1, by simp, hn⟩

/-! ## The state in terms of the history -/

theorem connected_iff_live (t : List Event) (c : ConnId) :
    (exec t).connected c = true ↔ Live t c := by
  induction t using List.reverseRecOn with
  | nil => simp [exec_nil, init, live_nil]
  | append_singleton t e ih =>
    rw [exec_snoc, step_connected, live_snoc, ← ih]
    by_cases h1 : e = .connect c
    · simp [h1]
    · by_cases h2 : e = .disconnect c
      · simp [h2]
      · simp [h1, h2]

theorem rooms_iff (t : List Event) (b : ConnId) (r : Room) :
    (exec t).rooms b r = true ↔ (Live t b ∧ r = some b) ∨ JoinedSince t b r := by
  induction t using List.reverseRecOn with
  | nil => simp [exec_nil, init, live_nil, joinedSince_nil]
  | append_singleton t e ih =>
    have hlive : ∀ x, JoinedSince t b x → (exec t).connected b = true :=
      fun x hx => (connected_iff_live t b).2 hx.live
    rw [exec_snoc, live_snoc, joinedSince_snoc]
    cases e with
    | connect c =>
      rw [step_connect_rooms]
      by_cases hb : b = c
      · subst hb
        by_cases hr : r = some b
        · simp [hr]
        · simp [hr, ih]
      · have hb2 : ¬ c = b := fun h => hb h.symm
        simp [hb, hb2, ih]
    | joinRoom c room u =>
      rw [step_joinRoom_rooms]
      by_cases hb : b = c
      · subst hb
        by_cases hr : r = room
        · subst hr
          by_cases hc : (exec t).connected b = true
          · have hl := (connected_iff_live t b).1 hc
            simp [hc, hl]
          · have hl : ¬ Live t b := fun h => hc ((connected_iff_live t b).2 h)
            have hj : ¬ JoinedSince t b r := fun h => hl h.live
            simp [hc, hl, hj, ih]
        · have hr2 : ¬ room = r := fun h => hr h.symm
          simp [hr, hr2, ih]
      · have hb2 : ¬ c = b := fun h => hb h.symm
        simp [hb, hb2, ih]
    | codeChange c room x => rw [step_codeChange_fst]; simp [ih]
    | sendChat c room u m => rw [step_sendChat_fst]; simp [ih]
    | typing c room u => rw [step_typing_fst]; simp [ih]
    | disconnect c =>
      rw [step_disconnect_rooms]
      by_cases hb : b = c
      · subst hb
        by_cases hc : (exec t).connected b = true
        · simp [hc]
        · have hl : ¬ Live t b := fun h => hc ((connected_iff_live t b).2 h)
          have hj : ¬ JoinedSince t b r := fun h => hl h.live
          simp [hc, hl, hj, ih]
      · have hb2 : ¬ c = b := fun h => hb h.symm
        simp [hb, hb2, ih]

theorem userMap_some_joined (t : List Event) (b : ConnId) (u : User) :
    (exec t).userMap b = some u → JoinedSince t b u.roomId := by
  induction t using List.reverseRecOn with
  | nil => simp [exec_nil, init]
  | append_singleton t e ih =>
    rw [exec_snoc, joinedSince_snoc]
    cases e with
    | connect c =>
      rw [step_connect_userMap]
      intro h
      exact Or.inr ⟨ih h, by simp⟩
    | joinRoom c room n =>
      rw [step_joinRoom_userMap]
      by_cases hc : (exec t).connected c = true ∧ b = c
      · obtain ⟨hc1, rfl⟩ := hc
        simp only [hc1, and_self, if_true, Option.some.injEq]
        rintro rfl
        exact Or.inl ⟨n, rfl, (connected_iff_live t b).1 hc1⟩
      · rw [if_neg hc]
        intro h
        exact Or.inr ⟨ih h, by simp⟩
    | codeChange c room x =>
      rw [step_codeChange_fst]
      intro h
      exact Or.inr ⟨ih h, by simp⟩
    | sendChat c room n m =>
      rw [step_sendChat_fst]
      intro h
      exact Or.inr ⟨ih h, by simp⟩
    | typing c room n =>
      rw [step_typing_fst]
      intro h
      exact Or.inr ⟨ih h, by simp⟩
    | disconnect c =>
      rw [step_disconnect_userMap]
      by_cases hc : (exec t).connected c = true ∧ b = c
      · simp [hc]
      · rw [if_neg hc]
        intro h
        refine Or.inr ⟨ih h, ?_⟩
        intro he
        injection he with he
        subst he
        exact hc ⟨(connected_iff_live t c).2 (ih h).live, rfl⟩

theorem userMap_isSome_iff (t : List Event) (c : ConnId) :
    ((exec t).userMap c).isSome = true ↔ HasJoined t c := by
  constructor
  · intro h
    obtain ⟨u, hu⟩ := Option.isSome_iff_exists.1 h
    exact ⟨u.roomId, userMap_some_joined t c u hu⟩
  · rintro ⟨r, hr⟩
    induction t using List.reverseRecOn with
    | nil => exact absurd hr (joinedSince_nil c r)
    | append_singleton t e ih =>
      rw [exec_snoc]
      rcases (joinedSince_snoc t e c r).1 hr with ⟨u, rfl, hl⟩ | ⟨hj, he⟩
      · rw [step_joinRoom_userMap]
        simp [(connected_iff_live t c).2 hl]
      · have ih2 := ih hj
        cases e with
        | connect d => rw [step_connect_userMap]; exact ih2
        | joinRoom d room n =>
          rw [step_joinRoom_userMap]
          split
          · rfl
          · exact ih2
        | codeChange d room x => rw [step_codeChange_fst]; exact ih2
        | sendChat d room n m => rw [step_sendChat_fst]; exact ih2
        | typing d room n => rw [step_typing_fst]; exact ih2
        | disconnect d =>
          rw [step_disconnect_userMap]
          have hd : ¬ c = d := fun h => he (by rw [h])
          simp [hd, ih2]

theorem joined_connected {t : List Event} {c : ConnId} {r : Room} (h : JoinedSince t c r) :
    (exec t).connected c = true :=
  (connected_iff_live t c).2 h.live

theorem rooms_connected {t : List Event} {c : ConnId} {r : Room}
    (h : (exec t).rooms c r = true) : (exec t).connected c = true := by
  rcases (rooms_iff t c r).1 h with ⟨hl, _⟩ | hj
  · exact (connected_iff_live t c).2 hl
  · exact joined_connected hj

theorem userMap_rooms {t : List Event} {c : ConnId} {u : User}
    (h : (exec t).userMap c = some u) : (exec t).rooms c u.roomId = true :=
  (rooms_iff t c u.roomId).2 (Or.inr (userMap_some_joined t c u h))

theorem own_room {t : List Event} {c : ConnId} (h : (exec t).connected c = true) :
    (exec t).rooms c (some c) = true :=
  (rooms_iff t c (some c)).2 (Or.inl ⟨(connected_iff_live t c).1 h, rfl⟩)

theorem outside_id_room {t : List Event} {A B : ConnId} (hAB : A ≠ B)
    (h : ¬ JoinedSince t B (some A)) : (exec t).rooms B (some A) = false := by
  cases hx : (exec t).rooms B (some A)
  · rfl
  · rcases (rooms_iff t B (some A)).1 hx with ⟨_, h2⟩ | h2
    · injection h2 with h2
      exact absurd h2 hAB
    · exact absurd h2 h

/-! ## The claims -/

/-- C1, as stated, fails: after `idRoomJoined` the distinct sockets `A` and `B`
have both joined `r1`, and a `code-change` of `A` for `r1` delivers nothing to
`B`, which also joined the room named after the id of `A`. -/
theorem code_change_withheld_from_id_room_member :
    JoinedSince idRoomJoined "A" (some "r1") ∧ JoinedSince idRoomJoined "B" (some "r1") ∧
    (step (exec idRoomJoined) (.codeChange "A" (some "r1") (some "x"))).2 "B" = [] :=
  ⟨⟨[.connect "A", .connect "B"],
      [.joinRoom "B" (some "A") (some "bob"), .joinRoom "B" (some "r1") (some "bob")],
      some "alice", rfl, ⟨[], [.connect "B"], rfl, by decide⟩, by decide⟩,
    ⟨[.connect "A", .connect "B", .joinRoom "A" (some "r1") (some "alice"),
        .joinRoom "B" (some "A") (some "bob")], [], some "bob", rfl,
      ⟨[.connect "A"], [.joinRoom "A" (some "r1") (some "alice"),
        .joinRoom "B" (some "A") (some "bob")], rfl, by decide⟩, by decide⟩,
    by decide⟩

/-- C1, amended: when two distinct sockets `A` and `B` have both joined room `R`
(in either order, and neither has disconnected since) and `B` has not joined the
room named after the id of `A`, a `code-change` of `A` for `R` with code `c`
delivers exactly the packet `code-update` with payload `c` to `B` and delivers
nothing to `A`. -/
theorem code_change_reaches_peer (t : List Event) (A B : ConnId) (R : Room) (c : String)
    (hAB : A ≠ B) (hA : JoinedSince t A R) (hB : JoinedSince t B R)
    (hId : ¬ JoinedSince t B (some A)) :
    (step (exec t) (.codeChange A R (some c))).2 B = [⟨"code-update", .val (some c)⟩] ∧
    (step (exec t) (.codeChange A R (some c))).2 A = [] := by
  have hc := joined_connected hA
  have hr := (rooms_iff t B R).2 (Or.inr hB)
  have hid := outside_id_room hAB hId
  have hown := own_room hc
  simp [step, onCodeChange, toEmit, hc, hr, hid, hown]

/-- C1 at the history `bothJoined`, where `B` joined before `A`. -/
theorem code_change_reaches_peer_witness :
    (step (exec bothJoined) (.codeChange "A" (some "r1") (some "x"))).2 "B"
        = [⟨"code-update", .val (some "x")⟩] ∧
    (step (exec bothJoined) (.codeChange "A" (some "r1") (some "x"))).2 "A" = [] :=
  code_change_reaches_peer bothJoined "A" "B" (some "r1") "x" (by decide)
    ⟨[.connect "A", .connect "B", .joinRoom "B" (some "r1") (some "bob")], [], some "alice",
      rfl, ⟨[], [.connect "B", .joinRoom "B" (some "r1") (some "bob")], rfl, by decide⟩,
      by decide⟩
    ⟨[.connect "A", .connect "B"], [.joinRoom "A" (some "r1") (some "alice")], some "bob",
      rfl, ⟨[.connect "A"], [], rfl, by decide⟩, by decide⟩
    (by
      intro h
      have h2 := (rooms_iff _ "B" (some "A")).2 (Or.inr h)
      revert h2
      decide)

/-- C2, as stated, fails: after `rejoined` the registry gives `A` the room `r1`
and `B` the room `r2`, and a `code-change` of `A` for `r1` is delivered to
`B`. -/
theorem room_isolation_by_registry_fails :
    (exec rejoined).userMap "A" = some { username := some "alice", roomId := some "r1" } ∧
    (exec rejoined).userMap "B" = some { username := some "bob", roomId := some "r2" } ∧
    (some "r1" : Room) ≠ some "r2" ∧
    (step (exec rejoined) (.codeChange "A" (some "r1") (some "x"))).2 "B"
      = [⟨"code-update", .val (some "x")⟩] := by
  decide

/-- C2, amended: in every reachable state, if `B` has not joined room `R` since
it connected, and `R` is not the room the transport names after `B` itself,
then no event of `A` addressed to `R` (code-change, send-chat, typing, join-room,
or the notice of the disconnect of `A` when the registry gives `A` the room `R`)
is delivered to `B`. -/
theorem room_isolation_by_subscription (t : List Event) (A B : ConnId) (R : Room)
    (hB : ¬ JoinedSince t B R) (hR : R ≠ some B) :
    (∀ c, (step (exec t) (.codeChange A R c)).2 B = []) ∧
    (∀ n m, (step (exec t) (.sendChat A R n m)).2 B = []) ∧
    (∀ n, (step (exec t) (.typing A R n)).2 B = []) ∧
    (∀ n, (step (exec t) (.joinRoom A R n)).2 B = []) ∧
    (∀ n, (exec t).userMap A = some { username := n, roomId := R } →
      (step (exec t) (.disconnect A)).2 B = []) := by
  have hr : (exec t).rooms B R = false := by
    cases h : (exec t).rooms B R
    · rfl
    · rcases (rooms_iff t B R).1 h with ⟨_, h2⟩ | h2
      · exact absurd h2 hR
      · exact absurd h2 hB
  refine ⟨?_, ?_, ?_, ?_, ?_⟩
  · intro c
    by_cases hc : (exec t).connected A = true <;> simp [step, onCodeChange, toEmit, silent, hc, hr]
  · intro n m
    by_cases hc : (exec t).connected A = true <;> simp [step, onSendChat, toEmit, silent, hc, hr]
  · intro n
    by_cases hc : (exec t).connected A = true <;> simp [step, onTyping, toEmit, silent, hc, hr]
  · intro n
    by_cases hc : (exec t).connected A = true
    · have hown := own_room hc
      by_cases hba : B = A
      · subst hba
        simp [step, onJoinRoom, toEmit, socketJoin, setUser, hc, hr, hown]
      · simp [step, onJoinRoom, toEmit, socketJoin, setUser, hc, hr, hba]
    · simp [step, silent, hc]
  · intro n hu
    by_cases hc : (exec t).connected A = true
    · by_cases hba : B = A <;>
        simp [step, onDisconnect, toEmit, leaveAll, hc, hr, hba, hu]
    · simp [step, silent, hc]

/-- C2 amended, at the history `bothJoined` and a socket `C` that connected but
joined nothing. -/
theorem room_isolation_by_subscription_witness :
    (step (exec (bothJoined ++ [.connect "C"])) (.codeChange "A" (some "r1") (some "x"))).2 "C"
      = [] :=
  (room_isolation_by_subscription (bothJoined ++ [.connect "C"]) "A" "C" (some "r1")
    (by
      intro h
      have h2 := (rooms_iff _ "C" (some "r1")).2 (Or.inr h)
      revert h2
      decide)
    (by decide)).1 (some "x")

/-- C3, as stated, fails: after `idRoomFirst` socket `A` has joined `r1` (and,
before that, the room named after the id of `B`); when the distinct socket `B`
then joins `r1`, socket `A` receives no `user-joined` notice. -/
theorem join_notice_withheld_from_id_room_member :
    JoinedSince idRoomFirst "A" (some "r1") ∧ Live idRoomFirst "B" ∧
    (step (exec idRoomFirst) (.joinRoom "B" (some "r1") (some "bob"))).2 "A" = [] :=
  ⟨⟨[.connect "A", .connect "B", .joinRoom "A" (some "B") (some "alice")], [], some "alice",
      rfl, ⟨[], [.connect "B", .joinRoom "A" (some "B") (some "alice")], rfl, by decide⟩,
      by decide⟩,
    ⟨[.connect "A"], [.joinRoom "A" (some "B") (some "alice"),
      .joinRoom "A" (some "r1") (some "alice")], rfl, by decide⟩,
    by decide⟩

/-- C3, amended: when `A` has joined room `R` and has not joined the room named
after the id of `B`, and the distinct connected socket `B` then sends
`join-room` for `R` with name `n`, socket `A` receives exactly one packet,
`user-joined` with the text `n joined the room`, and `B` receives nothing. -/
theorem join_notice_to_earlier_member (t : List Event) (A B : ConnId) (R : Room) (n : String)
    (hAB : A ≠ B) (hA : JoinedSince t A R) (hB : Live t B)
    (hId : ¬ JoinedSince t A (some B)) :
    (step (exec t) (.joinRoom B R (some n))).2 A
      = [⟨"user-joined", .val (some (n ++ " joined the room"))⟩] ∧
    (step (exec t) (.joinRoom B R (some n))).2 B = [] := by
  have hc := (connected_iff_live t B).2 hB
  have hr := (rooms_iff t A R).2 (Or.inr hA)
  have hid := outside_id_room (fun h => hAB h.symm) hId
  have hown := own_room hc
  simp [step, onJoinRoom, toEmit, socketJoin, setUser, interp, hc, hr, hAB, hid, hown]

/-- C3 at the history where `A` connected and joined `r1` and `B` connected. -/
theorem join_notice_to_earlier_member_witness :
    (step (exec [.connect "A", .joinRoom "A" (some "r1") (some "alice"), .connect "B"])
        (.joinRoom "B" (some "r1") (some "bob"))).2 "A"
      = [⟨"user-joined", .val (some "bob joined the room")⟩] ∧
    (step (exec [.connect "A", .joinRoom "A" (some "r1") (some "alice"), .connect "B"])
        (.joinRoom "B" (some "r1") (some "bob"))).2 "B" = [] :=
  join_notice_to_earlier_member
    [.connect "A", .joinRoom "A" (some "r1") (some "alice"), .connect "B"]
    "A" "B" (some "r1") "bob" (by decide)
    ⟨[.connect "A"], [.connect "B"], some "alice", rfl, ⟨[], [], rfl, by decide⟩, by decide⟩
    ⟨[.connect "A", .joinRoom "A" (some "r1") (some "alice")], [], rfl, by decide⟩
    (by
      intro h
      have h2 := (rooms_iff _ "A" (some "B")).2 (Or.inr h)
      revert h2
      decide)

/-- C4, as stated, fails: after `idRoomJoined` the registry holds `A` as alice in
`r1` and `B` as bob in `r1`, `B` is subscribed to `r1`, and the disconnect of
`A` delivers no `user-left` notice to `B`, which also joined the room named
after the id of `A`. -/
theorem left_notice_withheld_from_id_room_member :
    (exec idRoomJoined).userMap "A" = some { username := some "alice", roomId := some "r1" } ∧
    (exec idRoomJoined).userMap "B" = some { username := some "bob", roomId := some "r1" } ∧
    (exec idRoomJoined).rooms "B" (some "r1") = true ∧
    (step (exec idRoomJoined) (.disconnect "A")).2 "B" = [] := by
  decide

/-- C4, amended: when the registry holds `A` with name `n` and room `R`, handling
the disconnect of `A` leaves no registry entry for `A`, sends `A` nothing, and
sends every other member of `R` (a socket subscribed to `R`, or one whose
registry room is `R`) that is not in the room named after the id of `A` exactly
one packet, `user-left` with the text `n left the room`. -/
theorem disconnect_cleanup (t : List Event) (A : ConnId) (R : Room) (n : String)
    (hA : (exec t).userMap A = some { username := some n, roomId := R }) :
    (step (exec t) (.disconnect A)).1.userMap A = none ∧
    (step (exec t) (.disconnect A)).2 A = [] ∧
    ∀ B, B ≠ A →
      ((exec t).rooms B R = true ∨ ∃ u, (exec t).userMap B = some { username := u, roomId := R }) →
      (exec t).rooms B (some A) = false →
      (step (exec t) (.disconnect A)).2 B = [⟨"user-left", .val (some (n ++ " left the room"))⟩] := by
  have hc : (exec t).connected A = true := rooms_connected (userMap_rooms hA)
  refine ⟨?_, ?_, ?_⟩
  · rw [step_disconnect_userMap]
    simp [hc]
  · simp [step, onDisconnect, toEmit, leaveAll, hc, hA]
  · intro B hBA hm hid
    have hr : (exec t).rooms B R = true := by
      rcases hm with h | ⟨u, hu⟩
      · exact h
      · exact userMap_rooms hu
    simp [step, onDisconnect, toEmit, leaveAll, interp, hc, hA, hBA, hr, hid]

/-- C4 at the history `threeJoined`, with `B` (bob) disconnecting: the entry of
`B` is gone, `A` and `C` get the notice once, `B` gets nothing. -/
theorem disconnect_cleanup_witness :
    (step (exec threeJoined) (.disconnect "B")).1.userMap "B" = none ∧
    (step (exec threeJoined) (.disconnect "B")).2 "B" = [] ∧
    (step (exec threeJoined) (.disconnect "B")).2 "A"
      = [⟨"user-left", .val (some "bob left the room")⟩] ∧
    (step (exec threeJoined) (.disconnect "B")).2 "C"
      = [⟨"user-left", .val (some "bob left the room")⟩] :=
  have h := disconnect_cleanup threeJoined "B" (some "r1") "bob" (by decide)
  ⟨h.1, h.2.1, h.2.2 "A" (by decide) (Or.inl (by decide)) (by decide),
    h.2.2 "C" (by decide) (Or.inr ⟨some "carol", by decide⟩) (by decide)⟩

/-- C5, as stated, fails: after `idRoomJoined` sockets `A` and `B` are both
members of `r1`, and a `send-chat` of `A` for `r1` delivers nothing to `B`,
which also joined the room named after the id of `A`. -/
theorem chat_withheld_from_id_room_member :
    (exec idRoomJoined).rooms "A" (some "r1") = true ∧
    (exec idRoomJoined).rooms "B" (some "r1") = true ∧
    (step (exec idRoomJoined) (.sendChat "A" (some "r1") (some "alice") (some "hi"))).2 "B"
      = [] := by
  decide

/-- C5, amended: when `A` is a member of room `R`, a `send-chat` of `A` for `R`
with name `n` and message `m` sends every other member of `R` that is not in the
room named after the id of `A` exactly one packet, `receive-chat` with payload
`{ username: n, message: m }`, and sends `A` nothing. -/
theorem chat_reaches_other_members (t : List Event) (A : ConnId) (R : Room) (n m : String)
    (hA : (exec t).rooms A R = true) :
    (∀ B, B ≠ A → (exec t).rooms B R = true → (exec t).rooms B (some A) = false →
      (step (exec t) (.sendChat A R (some n) (some m))).2 B
        = [⟨"receive-chat", .chat (some n) (some m)⟩]) ∧
    (step (exec t) (.sendChat A R (some n) (some m))).2 A = [] := by
  have hc := rooms_connected hA
  have hown := own_room hc
  refine ⟨?_, ?_⟩
  · intro B _ hr hid
    simp [step, onSendChat, toEmit, hc, hr, hid]
  · simp [step, onSendChat, toEmit, hc, hown]

/-- C5 at the history `threeJoined`: `A` (alice) sends `hi`; `B` and `C` each
get `{ username: alice, message: hi }`, and `A` gets nothing. -/
theorem chat_reaches_other_members_witness :
    (step (exec threeJoined) (.sendChat "A" (some "r1") (some "alice") (some "hi"))).2 "B"
      = [⟨"receive-chat", .chat (some "alice") (some "hi")⟩] ∧
    (step (exec threeJoined) (.sendChat "A" (some "r1") (some "alice") (some "hi"))).2 "C"
      = [⟨"receive-chat", .chat (some "alice") (some "hi")⟩] ∧
    (step (exec threeJoined) (.sendChat "A" (some "r1") (some "alice") (some "hi"))).2 "A" = [] :=
  have h := chat_reaches_other_members threeJoined "A" (some "r1") "alice" "hi" (by decide)
  ⟨h.1 "B" (by decide) (by decide) (by decide), h.1 "C" (by decide) (by decide) (by decide),
    h.2⟩

/-- C6: in every reachable state, for a socket `c` that never sent `join-room`,
handling its `disconnect` raises no error, delivers no packet to any socket, and
leaves `userMap` as it was. -/
theorem disconnect_without_join_is_silent (t : List Event) (c : ConnId)
    (h : ∀ r u, Event.joinRoom c r u ∉ t) (p : Option Fields) :
    ∃ res, dispatch (exec t) c "disconnect" p = .ok res ∧
      (∀ b, res.2 b = []) ∧ res.1.userMap = (exec t).userMap := by
  have hu : (exec t).userMap c = none := by
    cases hx : (exec t).userMap c with
    | none => rfl
    | some u =>
      obtain ⟨pre, post, n, ht, _, _⟩ := userMap_some_joined t c u hx
      exact absurd (by rw [ht]; simp) (h u.roomId n)
  refine ⟨step (exec t) (.disconnect c), by simp [dispatch], ?_, ?_⟩
  · intro b
    by_cases hc : (exec t).connected c = true <;>
      simp [step, onDisconnect, leaveAll, silent, hc, hu]
  · by_cases hc : (exec t).connected c = true <;>
      simp [step, onDisconnect, leaveAll, hc, hu]

/-- C6 at a history where `A` is in room `r1` and `B` connected but joined
nothing: the disconnect of `B` is handled without error. -/
theorem disconnect_without_join_is_silent_witness :
    ∃ res, dispatch (exec [.connect "A", .joinRoom "A" (some "r1") (some "alice"), .connect "B"])
        "B" "disconnect" none = .ok res ∧
      (∀ b, res.2 b = []) ∧
      res.1.userMap
        = (exec [.connect "A", .joinRoom "A" (some "r1") (some "alice"), .connect "B"]).userMap :=
  disconnect_without_join_is_silent
    [.connect "A", .joinRoom "A" (some "r1") (some "alice"), .connect "B"] "B"
    (by intro r u; simp) none

/-- C7: after any sequence of connect, join-room, code-change, send-chat, typing
and disconnect events from start-up, `userMap` has an entry for `c` exactly when
`c` has sent at least one `join-room` (on its live connection) and has not
disconnected since. -/
theorem registry_entry_iff_joined (t : List Event) (c : ConnId) :
    ((exec t).userMap c).isSome = true ↔ HasJoined t c :=
  userMap_isSome_iff t c

/-- C8: when the registry holds `c` as `(n1, R1)`, a further `join-room` of `c`
with `(n2, R2)` is handled without error, leaves the entry of `c` equal to
`{ username: n2, roomId: R2 }` and every other entry unchanged; and handling the
same `join-room` a second time leaves `userMap` as the first left it. -/
theorem rejoin_overwrites (t : List Event) (c : ConnId) (n1 R1 n2 R2 : JSVal)
    (h : (exec t).userMap c = some { username := n1, roomId := R1 }) :
    (∀ x m, dispatch (exec t) c "join-room"
        (some { roomId := R2, username := n2, code := x, message := m })
      = .ok (step (exec t) (.joinRoom c R2 n2))) ∧
    (step (exec t) (.joinRoom c R2 n2)).1.userMap c = some { username := n2, roomId := R2 } ∧
    (∀ d, d ≠ c → (step (exec t) (.joinRoom c R2 n2)).1.userMap d = (exec t).userMap d) ∧
    (step (step (exec t) (.joinRoom c R2 n2)).1 (.joinRoom c R2 n2)).1.userMap
      = (step (exec t) (.joinRoom c R2 n2)).1.userMap := by
  have hc : (exec t).connected c = true := rooms_connected (userMap_rooms h)
  refine ⟨?_, ?_, ?_, ?_⟩
  · intro x m
    simp [dispatch]
  · rw [step_joinRoom_userMap]
    simp [hc]
  · intro d hd
    rw [step_joinRoom_userMap]
    simp [hd]
  · funext d
    rw [step_joinRoom_userMap, step_connected, step_joinRoom_userMap]
    by_cases hd : d = c <;> simp [hc, hd]

/-- C8 at the history `bothJoined`: `B`, registered as bob in `r1`, re-joins as
bobby in `r2`. -/
theorem rejoin_overwrites_witness :
    (step (exec bothJoined) (.joinRoom "B" (some "r2") (some "bobby"))).1.userMap "B"
      = some { username := some "bobby", roomId := some "r2" } ∧
    (step (exec bothJoined) (.joinRoom "B" (some "r2") (some "bobby"))).1.userMap "A"
      = (exec bothJoined).userMap "A" :=
  have h := rejoin_overwrites bothJoined "B" (some "bob") (some "r1") (some "bobby") (some "r2")
    (by decide)
  ⟨h.2.1, h.2.2.1 "A" (by decide)⟩

/-- C9: there is a reachable state with a socket `X` that never joined room `R`
and a member `B` of `R` such that a `code-change`, a `send-chat` and a `typing`
of `X` with roomId `R` are each delivered to `B`; and what these three handlers
send does not depend on `userMap` at all. -/
theorem router_trusts_payload_room :
    (∃ (t : List Event) (X B : ConnId) (R : Room),
      (∀ u, Event.joinRoom X R u ∉ t) ∧ R ≠ some X ∧ JoinedSince t B R ∧
      (step (exec t) (.codeChange X R (some "x"))).2 B = [⟨"code-update", .val (some "x")⟩] ∧
      (step (exec t) (.sendChat X R (some "eve") (some "hi"))).2 B
        = [⟨"receive-chat", .chat (some "eve") (some "hi")⟩] ∧
      (step (exec t) (.typing X R (some "eve"))).2 B
        = [⟨"show-typing", .val (some "eve is typing...")⟩]) ∧
    (∀ (s : State) (um : ConnId → Option User) (c : ConnId) (R x n m : JSVal),
      (step { s with userMap := um } (.codeChange c R x)).2 = (step s (.codeChange c R x)).2 ∧
      (step { s with userMap := um } (.sendChat c R n m)).2 = (step s (.sendChat c R n m)).2 ∧
      (step { s with userMap := um } (.typing c R n)).2 = (step s (.typing c R n)).2) := by
  refine ⟨⟨[.connect "X", .connect "B", .joinRoom "B" (some "r1") (some "bob")], "X", "B",
    some "r1", ?_, by decide, ?_, by decide, by decide, by decide⟩, ?_⟩
  · intro u
    simp
  · exact ⟨[.connect "X", .connect "B"], [], some "bob", rfl,
      ⟨[.connect "X"], [], rfl, by decide⟩, by decide⟩
  · intro s um c R x n m
    by_cases hc : s.connected c = true
    · simp only [step, onCodeChange, onSendChat, onTyping, hc, if_true]
      exact ⟨rfl, rfl, rfl⟩
    · simp [step, hc]

/-- C10, as stated, fails: after `idRoomJoined` socket `B` is another member of
`r1`, and a `code-change` and a `typing` of `A` for `r1` whose payloads lack the
other fields deliver nothing to `B`, which also joined the room named after the
id of `A`. -/
theorem missing_fields_withheld_from_id_room_member :
    (exec idRoomJoined).rooms "B" (some "r1") = true ∧
    (step (exec idRoomJoined) (.codeChange "A" (some "r1") none)).2 "B" = [] ∧
    (step (exec idRoomJoined) (.typing "A" (some "r1") none)).2 "B" = [] := by
  decide

/-- C10, amended: a `join-room`, `code-change`, `send-chat` or `typing` packet of
a connected socket `A` whose payload object lacks fields is handled without
error, and every other member `B` of the addressed room that is not in the room
named after the id of `A` still gets exactly one packet, in which a missing
field is `undefined` (`none`) or, inside a notice text, the word `undefined`. -/
theorem missing_fields_are_forwarded (t : List Event) (A : ConnId) (f : Fields)
    (hA : Live t A) :
    interp none = "undefined" ∧
    (∃ res, dispatch (exec t) A "join-room" (some f) = .ok res ∧
      res.1.userMap A = some { username := f.username, roomId := f.roomId } ∧
      ∀ B, B ≠ A → (exec t).rooms B f.roomId = true → (exec t).rooms B (some A) = false →
        res.2 B = [⟨"user-joined", .val (some (interp f.username ++ " joined the room"))⟩]) ∧
    (∃ res, dispatch (exec t) A "code-change" (some f) = .ok res ∧
      ∀ B, B ≠ A → (exec t).rooms B f.roomId = true → (exec t).rooms B (some A) = false →
        res.2 B = [⟨"code-update", .val f.code⟩]) ∧
    (∃ res, dispatch (exec t) A "send-chat" (some f) = .ok res ∧
      ∀ B, B ≠ A → (exec t).rooms B f.roomId = true → (exec t).rooms B (some A) = false →
        res.2 B = [⟨"receive-chat", .chat f.username f.message⟩]) ∧
    (∃ res, dispatch (exec t) A "typing" (some f) = .ok res ∧
      ∀ B, B ≠ A → (exec t).rooms B f.roomId = true → (exec t).rooms B (some A) = false →
        res.2 B = [⟨"show-typing", .val (some (interp f.username ++ " is typing..."))⟩]) := by
  have hc := (connected_iff_live t A).2 hA
  refine ⟨rfl, ⟨step (exec t) (.joinRoom A f.roomId f.username), by simp [dispatch], ?_, ?_⟩,
    ⟨step (exec t) (.codeChange A f.roomId f.code), by simp [dispatch], ?_⟩,
    ⟨step (exec t) (.sendChat A f.roomId f.username f.message), by simp [dispatch], ?_⟩,
    ⟨step (exec t) (.typing A f.roomId f.username), by simp [dispatch], ?_⟩⟩
  · rw [step_joinRoom_userMap]
    simp [hc]
  · intro B hBA hr hid
    simp [step, onJoinRoom, toEmit, socketJoin, setUser, hc, hr, hBA, hid]
  · intro B _ hr hid
    simp [step, onCodeChange, toEmit, hc, hr, hid]
  · intro B _ hr hid
    simp [step, onSendChat, toEmit, hc, hr, hid]
  · intro B _ hr hid
    simp [step, onTyping, toEmit, hc, hr, hid]

/-- C10 at the history `bothJoined`, with a payload that carries nothing but
`roomId`: `B` gets `code-update` with an undefined payload and the notice
`undefined is typing...`. -/
theorem missing_fields_are_forwarded_witness :
    (∃ res, dispatch (exec bothJoined) "A" "code-change"
        (some { roomId := some "r1", username := none, code := none, message := none }) = .ok res ∧
      res.2 "B" = [⟨"code-update", .val none⟩]) ∧
    (∃ res, dispatch (exec bothJoined) "A" "typing"
        (some { roomId := some "r1", username := none, code := none, message := none }) = .ok res ∧
      res.2 "B" = [⟨"show-typing", .val (some "undefined is typing...")⟩]) :=
  have h := missing_fields_are_forwarded bothJoined "A"
    { roomId := some "r1", username := none, code := none, message := none }
    ⟨[], [.connect "B", .joinRoom "B" (some "r1") (some "bob"),
      .joinRoom "A" (some "r1") (some "alice")], rfl, by decide⟩
  ⟨(let ⟨res, h1, h2⟩ := h.2.2.1; ⟨res, h1, h2 "B" (by decide) (by decide) (by decide)⟩),
    (let ⟨res, h1, h2⟩ := h.2.2.2.2; ⟨res, h1, h2 "B" (by decide) (by decide) (by decide)⟩)⟩

/-! ## Re-joining -/

theorem exec_append (a b : List Event) :
    exec (a ++ b) = b.foldl (fun s e => (step s e).1) (exec a) := by
  simp [exec, List.foldl_append]

theorem userMap_kept (c : ConnId) (post : List Event) :
    ∀ s : State, Event.disconnect c ∉ post → (∀ r u, Event.joinRoom c r u ∉ post) →
      (post.foldl (fun s e => (step s e).1) s).userMap c = s.userMap c := by
  induction post with
  | nil => intro s _ _; rfl
  | cons e l ih =>
    intro s h1 h2
    rw [List.foldl_cons,
      ih _ (fun h => h1 (List.mem_cons_of_mem _ h)) (fun r u h => h2 r u (List.mem_cons_of_mem _ h))]
    cases e with
    | connect d => rw [step_connect_userMap]
    | joinRoom d room n =>
      have hd : ¬ c = d := fun h => h2 room n (by rw [h]; exact List.mem_cons_self _ _)
      rw [step_joinRoom_userMap]
      simp [hd]
    | codeChange d room x => rw [step_codeChange_fst]
    | sendChat d room n m => rw [step_sendChat_fst]
    | typing d room n => rw [step_typing_fst]
    | disconnect d =>
      have hd : ¬ c = d := fun h => h1 (by rw [h]; exact List.mem_cons_self _ _)
      rw [step_disconnect_userMap]
      simp [hd]

theorem RejoinedAs.joinedSince {t : List Event} {c : ConnId} {r1 r2 : Room} {n2 : JSVal}
    (h : RejoinedAs t c r1 r2 n2) : JoinedSince t c r1 := by
  obtain ⟨a, post, rfl, ⟨pre, p, u, rfl, hl, hn⟩, hd, _⟩ := h
  refine ⟨pre, p ++ Event.joinRoom c r2 n2 :: post, u, by simp, hl, ?_⟩
  simp only [List.mem_append, List.mem_cons, not_or]
  exact ⟨hn, by simp, hd⟩

theorem RejoinedAs.userMap {t : List Event} {c : ConnId} {r1 r2 : Room} {n2 : JSVal}
    (h : RejoinedAs t c r1 r2 n2) :
    (exec t).userMap c = some { username := n2, roomId := r2 } := by
  obtain ⟨a, post, rfl, hj, hd, hn⟩ := h
  have hc : (exec a).connected c = true := joined_connected hj
  have e1 : a ++ Event.joinRoom c r2 n2 :: post = (a ++ [Event.joinRoom c r2 n2]) ++ post := by
    simp
  rw [e1, exec_append, userMap_kept c post _ hd hn, exec_snoc, step_joinRoom_userMap]
  simp [hc]

/-- C11, as stated, fails twice.  After `crossJoined` socket `C` has joined `r1`
and then `r2`, socket `D` is a member of `r1` (by subscription and by the
registry), and the `user-left` notice of the disconnect of `C` is delivered to
`D`.  After `idRoomRejoin` socket `C` has joined `r1` and then the room named
after the id of `D`, it is still subscribed to `r1`, and a `code-change` of `D`
for `r1` is not delivered to `C`. -/
theorem left_notice_reaches_old_room_member :
    ((exec crossJoined).userMap "C" = some { username := some "carol", roomId := some "r2" } ∧
      (exec crossJoined).userMap "D" = some { username := some "dave", roomId := some "r1" } ∧
      (exec crossJoined).rooms "D" (some "r1") = true ∧
      (step (exec crossJoined) (.disconnect "C")).2 "D"
        = [⟨"user-left", .val (some "carol left the room")⟩]) ∧
    ((exec idRoomRejoin).userMap "C" = some { username := some "carol", roomId := some "D" } ∧
      (exec idRoomRejoin).rooms "C" (some "r1") = true ∧
      (step (exec idRoomRejoin) (.codeChange "D" (some "r1") (some "x"))).2 "C" = []) := by
  decide

/-- C11, amended: when `c` joined `R1` and then a different room `R2` with name
`n2` (and has not disconnected or joined again since), the registry records
`R2` and not `R1`, `c` is still subscribed to `R1` and a `code-change` for `R1`
of any other connected socket `d` is delivered to `c` unless `c` is in the room
named after the id of `d`, and the `user-left` notice of the disconnect of `c`
goes to exactly the other sockets subscribed to `R2` that are not in the room
named after the id of `c`: a member of `R1` gets it only if it is subscribed to
`R2` as well. -/
theorem rejoin_keeps_old_subscription (t : List Event) (c : ConnId) (R1 R2 : Room) (n2 : JSVal)
    (h : RejoinedAs t c R1 R2 n2) (hne : R1 ≠ R2) :
    (exec t).userMap c = some { username := n2, roomId := R2 } ∧
    (∀ u, (exec t).userMap c = some u → u.roomId ≠ R1) ∧
    (exec t).rooms c R1 = true ∧
    (∀ d x, d ≠ c → Live t d → (exec t).rooms c (some d) = false →
      (step (exec t) (.codeChange d R1 x)).2 c = [⟨"code-update", .val x⟩]) ∧
    (∀ b, (step (exec t) (.disconnect c)).2 b =
      if b ≠ c ∧ (exec t).rooms b R2 = true ∧ (exec t).rooms b (some c) = false
      then [⟨"user-left", .val (some (interp n2 ++ " left the room"))⟩] else []) ∧
    (∀ b, (exec t).rooms b R1 = true → (exec t).rooms b R2 = false →
      (step (exec t) (.disconnect c)).2 b = []) := by
  have hu := h.userMap
  have hr : (exec t).rooms c R1 = true := (rooms_iff t c R1).2 (Or.inr h.joinedSince)
  have hc : (exec t).connected c = true := joined_connected h.joinedSince
  have hout : ∀ b, (step (exec t) (.disconnect c)).2 b =
      if b ≠ c ∧ (exec t).rooms b R2 = true ∧ (exec t).rooms b (some c) = false
      then [⟨"user-left", .val (some (interp n2 ++ " left the room"))⟩] else [] := by
    intro b
    by_cases hb : b = c <;> simp [step, onDisconnect, toEmit, leaveAll, hc, hu, hb]
  refine ⟨hu, ?_, hr, ?_, hout, ?_⟩
  · intro u hu2
    rw [hu] at hu2
    injection hu2 with hu2
    rw [← hu2]
    exact fun h2 => hne h2.symm
  · intro d x _ hl hid
    have hdc := (connected_iff_live t d).2 hl
    simp [step, onCodeChange, toEmit, hdc, hr, hid]
  · intro b _ h2
    rw [hout b]
    simp [h2]

/-- C11 amended, at the history `rejoined`: `B` joined `r1` and then `r2`; the
registry holds `r2`, a `code-change` of `A` for `r1` still reaches `B`, and the
disconnect of `B` sends nothing to `A`, which is in `r1` only. -/
theorem rejoin_keeps_old_subscription_witness :
    (exec rejoined).userMap "B" = some { username := some "bob", roomId := some "r2" } ∧
    (step (exec rejoined) (.codeChange "A" (some "r1") (some "x"))).2 "B"
      = [⟨"code-update", .val (some "x")⟩] ∧
    (step (exec rejoined) (.disconnect "B")).2 "A" = [] :=
  have h := rejoin_keeps_old_subscription rejoined "B" (some "r1") (some "r2") (some "bob")
    ⟨[.connect "A", .connect "B", .joinRoom "B" (some "r1") (some "bob")],
      [.joinRoom "A" (some "r1") (some "alice")], rfl,
      ⟨[.connect "A", .connect "B"], [], some "bob", rfl, ⟨[.connect "A"], [], rfl, by decide⟩,
        by decide⟩,
      by decide, by intro r u; simp⟩
    (by decide)
  ⟨h.1, h.2.2.2.1 "A" (some "x") (by decide)
      ⟨[], [.connect "B", .joinRoom "B" (some "r1") (some "bob"),
        .joinRoom "B" (some "r2") (some "bob"), .joinRoom "A" (some "r1") (some "alice")],
        rfl, by decide⟩ (by decide),
    h.2.2.2.2.2 "A" (by decide) (by decide)⟩

end JustCoding
